import Mathlib

/-!
Shallow embedding of `src/src/bin/part1.rs` and `src/src/bin/part2.rs`
(Advent of Code 2023 day 5: almanac range remapping).

Conventions of the embedding:
* the machine integer `usize` is modelled as `Nat` (no claim concerns
  64-bit wrap-around; the numeric parser still enforces the `2 ^ 64`
  bound of `usize::from_str`);
* Rust panics (`unwrap`, `assert_eq!`, out-of-bounds indexing) and
  `anyhow` errors are both modelled as the `none` of an `Option` result;
* a line of text is modelled as its list of characters.
-/

/-- One mapping rule.  Shared, field for field, by the `AlmanacRange`
structs of part1.rs (lines 9-13) and part2.rs (lines 11-15). -/
structure AlmanacRange where
  source_start : Nat
  destination_start : Nat
  range_length : Nat
deriving DecidableEq

/-- `AlmanacRange::get_destination`, identical in part1.rs (lines 16-22)
and part2.rs (lines 18-24): `None` when `source < source_start` or
`source > source_start + range_length`, otherwise
`Some (destination_start + (source - source_start))`.  Note the second
guard uses a strict `>`, so the value `source_start + range_length`
itself is NOT sent to `None`. -/
def AlmanacRange.get_destination (r : AlmanacRange) (source : Nat) : Option Nat :=
  if source < r.source_start ∨ r.source_start + r.range_length < source then
    none
  else
    some (r.destination_start + (source - r.source_start))

/-- The exact set of sources on which `AlmanacRange::get_destination`
returns `Some`: the closed interval from `source_start` to
`source_start + range_length`. -/
def AlmanacRange.Covers (r : AlmanacRange) (s : Nat) : Prop :=
  r.source_start ≤ s ∧ s ≤ r.source_start + r.range_length

instance (r : AlmanacRange) (s : Nat) : Decidable (r.Covers s) := by
  unfold AlmanacRange.Covers; infer_instance

/-- Disjointness of the closed source intervals of two rules (the region
where the code's point lookup actually answers `Some`). -/
def DisjointClosed (a b : AlmanacRange) : Prop :=
  a.source_start + a.range_length < b.source_start ∨
    b.source_start + b.range_length < a.source_start

instance (a b : AlmanacRange) : Decidable (DisjointClosed a b) := by
  unfold DisjointClosed; infer_instance

/-- Disjointness of the half-open source intervals
`[source_start, source_start + range_length)` of two rules (the rule
regions as the specification describes them). -/
def DisjointHalfOpen (a b : AlmanacRange) : Prop :=
  a.source_start + a.range_length ≤ b.source_start ∨
    b.source_start + b.range_length ≤ a.source_start

instance (a b : AlmanacRange) : Decidable (DisjointHalfOpen a b) := by
  unfold DisjointHalfOpen; infer_instance

namespace Part1

/-- `AlmanacRanges::get_destination` of part1.rs (lines 30-36): the first
rule, in vector order, whose point lookup answers `Some`
(`filter_map(..).next()`), defaulting to `source` (`unwrap_or`). -/
def AlmanacRanges.get_destination (ranges : List AlmanacRange) (source : Nat) : Nat :=
  (ranges.findSome? (fun r => r.get_destination source)).getD source

end Part1

namespace Part2

/-- Core loop of Rust's slice `binary_search_by_key`, over the list
`keys`, searching `target` on the half-open index interval
`[left, right)` with the three-way comparison Rust uses
(`mid = left + (right - left) / 2`).  `fuel` only makes the recursion
structural: whenever `right - left ≤ fuel` the loop behaves exactly as
Rust's, and when fuel runs out `left ≥ right` already holds, so the
`.error left` fallback agrees with the loop's own exit. -/
def binarySearchByKey (keys : List Nat) (target : Nat) :
    Nat → Nat → Nat → Except Nat Nat
  | 0, left, _ => .error left
  | fuel + 1, left, right =>
    if left < right then
      if keys.getD (left + (right - left) / 2) 0 < target then
        binarySearchByKey keys target fuel (left + (right - left) / 2 + 1) right
      else if target < keys.getD (left + (right - left) / 2) 0 then
        binarySearchByKey keys target fuel left (left + (right - left) / 2)
      else .ok (left + (right - left) / 2)
    else .error left

/-- The sort relation of `AlmanacRanges::from_vec`
(`sort_by_key(|r| r.source_start)`). -/
def leSourceStart (a b : AlmanacRange) : Prop :=
  a.source_start ≤ b.source_start

instance : DecidableRel leSourceStart := fun a b => Nat.decLe _ _

instance : IsTotal AlmanacRange leSourceStart := ⟨fun a b => Nat.le_total _ _⟩

instance : IsTrans AlmanacRange leSourceStart := ⟨fun _ _ _ h h2 => Nat.le_trans h h2⟩

/-- `AlmanacRanges::from_vec` of part2.rs (lines 32-35): sort the rules by
`source_start`.  Rust's `sort_by_key` is a stable sort and
`List.insertionSort` is stable too, so the two produce the same list. -/
def AlmanacRanges.from_vec (ranges : List AlmanacRange) : List AlmanacRange :=
  List.insertionSort leSourceStart ranges

/-- `AlmanacRanges::get_destination` of part2.rs (lines 37-62).  The
binary-search result is dispatched exactly as in the Rust `match`; the
two potentially panicking operations — `last().unwrap()` and the index
`self.ranges[i - 1]` — are modelled fallibly, `none` meaning a panic. -/
def AlmanacRanges.get_destination (ranges : List AlmanacRange) (source : Nat) : Option Nat :=
  match binarySearchByKey (ranges.map (fun r => r.source_start)) source
      ranges.length 0 ranges.length with
  | .ok r => (ranges[r]?).map (fun rr => rr.destination_start)
  | .error i =>
    if i = 0 then some source
    else if i = ranges.length then
      match ranges.getLast? with
      | none => none
      | some lastRange => some ((lastRange.get_destination source).getD source)
    else
      match ranges[i - 1]? with
      | none => none
      | some r => some ((r.get_destination source).getD source)

end Part2

/-- A line of text, as its characters. -/
abbrev Line := List Char

/-- Rust `str::split(' ')`: split at every space, keeping empty pieces
(splitting the empty string yields one empty piece). -/
def splitSpaces : Line → List Line
  | [] => [[]]
  | c :: rest =>
    match splitSpaces rest with
    | [] => [[c]]
    | p :: ps => if c = ' ' then [] :: p :: ps else (c :: p) :: ps

/-- Rust `usize::from_str`, as invoked through `.parse().unwrap()`:
an optional leading `+`, then one or more ASCII digits, and the value
must fit in 64 bits.  `none` is the `Err` case (which the callers turn
into a panic). -/
def parseUsize (s : Line) : Option Nat :=
  let ds := if s.head? = some '+' then s.tail else s
  if ds.isEmpty then none
  else if ds.all (fun c => c.isDigit) then
    let v := ds.foldl (fun acc c => acc * 10 + (c.toNat - 48)) 0
    if v < 2 ^ 64 then some v else none
  else none

/-- `parse_num_sequence` (part1.rs lines 50-55, part2.rs lines 76-81):
split on spaces, drop empty pieces, parse every piece; any parse failure
is an `unwrap` panic, so the whole result is `none`. -/
def parse_num_sequence (seq : Line) : Option (List Nat) :=
  ((splitSpaces seq).filter (fun s => !s.isEmpty)).mapM parseUsize

/-- Rust `str::ends_with(':')`. -/
def endsWithColon (l : Line) : Bool := l.getLast? == some ':'

/-- Shared body of the two `parse_section` functions (part1.rs lines
57-78, part2.rs lines 92-113), applied to the lines of one section (the
`take_while(|l| !l.is_empty())` portion): label lines ending in `:` are
skipped; every other line must parse as exactly three integers
(`assert_eq!(range.len(), 3)`; that assertion failure, like a parse
panic, is modelled by `none`), read as
`(destination_start, source_start, range_length)` in that order. -/
def parseRules : List Line → Option (List AlmanacRange)
  | [] => some []
  | l :: rest =>
    if endsWithColon l then parseRules rest
    else
      match parse_num_sequence l with
      | none => none
      | some nums =>
        if nums.length = 3 then
          (parseRules rest).map
            (fun rs => ⟨nums.getD 1 0, nums.getD 0 0, nums.getD 2 0⟩ :: rs)
        else none

/-- `parse_section` of part1.rs: the section's rules, in input order. -/
def Part1.parse_section (lines : List Line) : Option (List AlmanacRange) :=
  parseRules (lines.takeWhile (fun l => !l.isEmpty))

/-- `parse_section` of part2.rs: like part1's, but the rules go through
`AlmanacRanges::from_vec`, i.e. come out sorted by `source_start`. -/
def Part2.parse_section (lines : List Line) : Option (List AlmanacRange) :=
  (parseRules (lines.takeWhile (fun l => !l.isEmpty))).map
    Part2.AlmanacRanges.from_vec

/-- The pairing step of `parse_ranges` (part2.rs lines 83-90): itertools'
`tuples()` groups the integers pairwise — silently discarding an
unpaired final integer — and `(v1, v2)` becomes the Rust range
`v1..(v1 + v2)`, modelled as the pair `(v1, v1 + v2)` of its bounds. -/
def Part2.toPairRanges : List Nat → List (Nat × Nat)
  | v1 :: v2 :: rest => (v1, v1 + v2) :: Part2.toPairRanges rest
  | _ => []

/-- `parse_ranges` of part2.rs (lines 83-90): parse the integers of the
seeds line (panic, i.e. `none`, on a malformed integer), then pair them
up with `tuples()`. -/
def Part2.parse_ranges (seq : Line) : Option (List (Nat × Nat)) :=
  (parse_num_sequence seq).map Part2.toPairRanges

/-- The `Almanac` of part1.rs (lines 39-48).  The Rust `seeds` field is a
`HashSet<usize>` built from the parsed list; we keep the list itself —
`Iterator::min` depends neither on iteration order nor on duplicates, so
the hash-set is observationally the list of its elements. -/
structure Part1.Almanac where
  seeds : List Nat
  seed_to_soil : List AlmanacRange
  soil_to_fertilizer : List AlmanacRange
  fertilizer_to_water : List AlmanacRange
  water_to_light : List AlmanacRange
  light_to_temperature : List AlmanacRange
  temperature_to_humidity : List AlmanacRange
  humidity_to_location : List AlmanacRange

/-- The evaluation pipeline of `part1` (part1.rs lines 100-111): seven
`map`s over the seed values, then `min`; `none` models the
`context("no minimum found")` error. -/
def Part1.run (a : Part1.Almanac) : Option Nat :=
  (((((((a.seeds.map
    (Part1.AlmanacRanges.get_destination a.seed_to_soil)).map
    (Part1.AlmanacRanges.get_destination a.soil_to_fertilizer)).map
    (Part1.AlmanacRanges.get_destination a.fertilizer_to_water)).map
    (Part1.AlmanacRanges.get_destination a.water_to_light)).map
    (Part1.AlmanacRanges.get_destination a.light_to_temperature)).map
    (Part1.AlmanacRanges.get_destination a.temperature_to_humidity)).map
    (Part1.AlmanacRanges.get_destination a.humidity_to_location)).min?

/-- The `Almanac` of part2.rs (lines 65-74): seeds are Rust ranges,
modelled as `(start, end)` pairs of their bounds; the tables have been
through `from_vec` by `parse_section`. -/
structure Part2.Almanac where
  seeds : List (Nat × Nat)
  seed_to_soil : List AlmanacRange
  soil_to_fertilizer : List AlmanacRange
  fertilizer_to_water : List AlmanacRange
  water_to_light : List AlmanacRange
  light_to_temperature : List AlmanacRange
  temperature_to_humidity : List AlmanacRange
  humidity_to_location : List AlmanacRange

/-- Iterating a Rust range `start..stop` yields
`start, start + 1, …, stop - 1`, and nothing when `stop ≤ start`. -/
def Part2.rangePoints (r : Nat × Nat) : List Nat :=
  List.range' r.1 (r.2 - r.1)

/-- The individual seed values mode B iterates over: the concatenation of
every seed interval's points (the `flatten` in part2.rs line 147). -/
def Part2.seedPoints (a : Part2.Almanac) : List Nat :=
  a.seeds.flatMap Part2.rangePoints

/-- Total wrapper of part2's table lookup: `Part2.AlmanacRanges.get_destination`
never actually returns `none` (theorem `Part2.get_destination_total`
below), so defaulting only discharges the typing, never changes a value. -/
def Part2.lookup (ranges : List AlmanacRange) (source : Nat) : Nat :=
  (Part2.AlmanacRanges.get_destination ranges source).getD source

/-- The evaluation pipeline of `part2` (part2.rs lines 135-156): flatten
the seed ranges to their points, seven `map`s, then `min`; `none` models
the `context("no minimum found")` error.  (The `println!` pass-through
map and the rayon parallel iteration do not affect the multiset of
values reaching `min`.) -/
def Part2.run (a : Part2.Almanac) : Option Nat :=
  ((((((((Part2.seedPoints a).map
    (Part2.lookup a.seed_to_soil)).map
    (Part2.lookup a.soil_to_fertilizer)).map
    (Part2.lookup a.fertilizer_to_water)).map
    (Part2.lookup a.water_to_light)).map
    (Part2.lookup a.light_to_temperature)).map
    (Part2.lookup a.temperature_to_humidity)).map
    (Part2.lookup a.humidity_to_location)).min?

/-- Specification-side reading of the mode A pipeline: the composition of
the seven table lookups, applied to one seed in the fixed order
seed→soil→fertilizer→water→light→temperature→humidity→location. -/
def Part1.locationOfSeed (a : Part1.Almanac) (s : Nat) : Nat :=
  Part1.AlmanacRanges.get_destination a.humidity_to_location
    (Part1.AlmanacRanges.get_destination a.temperature_to_humidity
      (Part1.AlmanacRanges.get_destination a.light_to_temperature
        (Part1.AlmanacRanges.get_destination a.water_to_light
          (Part1.AlmanacRanges.get_destination a.fertilizer_to_water
            (Part1.AlmanacRanges.get_destination a.soil_to_fertilizer
              (Part1.AlmanacRanges.get_destination a.seed_to_soil s))))))

/-- Specification-side reading of the mode B pipeline: the composition of
the seven table lookups applied to one seed point, in the same fixed
order. -/
def Part2.locationOfSeed (a : Part2.Almanac) (s : Nat) : Nat :=
  Part2.lookup a.humidity_to_location
    (Part2.lookup a.temperature_to_humidity
      (Part2.lookup a.light_to_temperature
        (Part2.lookup a.water_to_light
          (Part2.lookup a.fertilizer_to_water
            (Part2.lookup a.soil_to_fertilizer
              (Part2.lookup a.seed_to_soil s))))))

/-! ### Basic lemmas about the rule point lookup -/

theorem AlmanacRange.get_destination_of_covers {r : AlmanacRange} {s : Nat}
    (h : r.Covers s) :
    r.get_destination s = some (r.destination_start + (s - r.source_start)) := by
  obtain ⟨h1, h2⟩ := h
  unfold AlmanacRange.get_destination
  rw [if_neg (by omega)]

theorem AlmanacRange.get_destination_of_not_covers {r : AlmanacRange} {s : Nat}
    (h : ¬ r.Covers s) :
    r.get_destination s = none := by
  unfold AlmanacRange.Covers at h
  unfold AlmanacRange.get_destination
  rw [if_pos (by omega)]

theorem AlmanacRange.covers_of_get_destination_eq_some {r : AlmanacRange} {s d : Nat}
    (h : r.get_destination s = some d) : r.Covers s := by
  by_contra hc
  rw [AlmanacRange.get_destination_of_not_covers hc] at h
  cases h

/-- `DisjointClosed` is symmetric. -/
theorem disjointClosed_symm : Symmetric DisjointClosed :=
  fun _ _ h => h.elim Or.inr Or.inl

/-- Two rules with disjoint closed source intervals cannot both cover the
same source value. -/
theorem not_covers_both_of_disjointClosed {a b : AlmanacRange} {s : Nat}
    (hd : DisjointClosed a b) (ha : a.Covers s) (hb : b.Covers s) : False := by
  obtain ⟨ha1, ha2⟩ := ha
  obtain ⟨hb1, hb2⟩ := hb
  unfold DisjointClosed at hd
  omega

/-- In a table whose rules have pairwise disjoint closed source intervals,
the rule covering a given source value is unique. -/
theorem covers_uniq_of_pairwise {ranges : List AlmanacRange} {R : AlmanacRange} {s : Nat}
    (hp : ranges.Pairwise DisjointClosed) (hmem : R ∈ ranges) (hcov : R.Covers s) :
    ∀ r ∈ ranges, r.Covers s → r = R := by
  intro r hr hcr
  by_contra hne
  exact not_covers_both_of_disjointClosed
    (hp.forall disjointClosed_symm hr hmem hne) hcr hcov

/-! ### Lemmas about part1's linear first-match lookup -/

theorem Part1.get_destination_eq_of_uniq {ranges : List AlmanacRange}
    {R : AlmanacRange} {s : Nat} (hmem : R ∈ ranges) (hcov : R.Covers s)
    (huniq : ∀ r ∈ ranges, r.Covers s → r = R) :
    Part1.AlmanacRanges.get_destination ranges s
      = R.destination_start + (s - R.source_start) := by
  induction ranges with
  | nil => cases hmem
  | cons a t ih =>
    unfold Part1.AlmanacRanges.get_destination
    rw [List.findSome?_cons]
    by_cases hca : a.Covers s
    · have haR : a = R := huniq a (List.mem_cons_self a t) hca
      subst haR
      rw [AlmanacRange.get_destination_of_covers hca]
      rfl
    · rw [AlmanacRange.get_destination_of_not_covers hca]
      have hRt : R ∈ t := by
        rcases List.mem_cons.mp hmem with h | h
        · exact absurd (h ▸ hcov) hca
        · exact h
      exact ih hRt (fun r hr hcr => huniq r (List.mem_cons_of_mem a hr) hcr)

theorem Part1.get_destination_eq_self {ranges : List AlmanacRange} {s : Nat}
    (h : ∀ r ∈ ranges, ¬ r.Covers s) :
    Part1.AlmanacRanges.get_destination ranges s = s := by
  unfold Part1.AlmanacRanges.get_destination
  rw [List.findSome?_eq_none_iff.mpr
    (fun r hr => AlmanacRange.get_destination_of_not_covers (h r hr))]
  rfl

/-! ### Claim theorems: rule-level boundary behaviour -/

/-- C1 (code bug).  The claim's inclusive lower bound holds: a source
equal to `source_start` maps to `destination_start`.  But the claimed
exclusive upper bound is violated: on the rule
`(source_start 10, destination_start 100, length 5)` the source
`15 = source_start + length` is still answered `some 105` by
`AlmanacRange::get_destination` (its guard uses `>` instead of `>=`),
not the `None` the claim requires; only `16` falls outside. -/
theorem c1_rule_boundary :
    AlmanacRange.get_destination ⟨10, 100, 5⟩ 10 = some 100 ∧
    AlmanacRange.get_destination ⟨10, 100, 5⟩ 15 = some 105 ∧
    AlmanacRange.get_destination ⟨10, 100, 5⟩ 16 = none := by
  decide

/-- C3 (code bug).  On the one-rule table
`(source_start 0, destination_start 100, length 5)` the source `5` lies
outside the rule's half-open interval `[0, 5)`, so the claim requires the
identity result `5`; but both implementations answer `105`: part1's
linear lookup and part2's binary-search lookup both treat `5` as covered
(the `>` off-by-one of `AlmanacRange::get_destination`). -/
theorem c3_point_lookup_contract :
    Part1.AlmanacRanges.get_destination [⟨0, 100, 5⟩] 5 = 105 ∧
    Part2.AlmanacRanges.get_destination
      (Part2.AlmanacRanges.from_vec [⟨0, 100, 5⟩]) 5 = some 105 := by
  decide

/-- C8 (confirmed).  A mapping table built from zero rules maps every
source value to itself, in part1's linear lookup and in part2's
binary-search lookup (which reaches its `Err(0)` identity branch). -/
theorem c8_empty_table_identity (s : Nat) :
    Part1.AlmanacRanges.get_destination [] s = s ∧
    Part2.AlmanacRanges.get_destination (Part2.AlmanacRanges.from_vec []) s = some s :=
  ⟨rfl, rfl⟩

/-! ### Lemmas about the binary search of part2 -/

namespace Part2

theorem binarySearchByKey_ok {keys : List Nat} {target : Nat} :
    ∀ {fuel left right i : Nat},
      binarySearchByKey keys target fuel left right = .ok i →
      left ≤ i ∧ i < right ∧ keys.getD i 0 = target := by
  intro fuel
  induction fuel with
  | zero => intro l r i h; cases h
  | succ n ih =>
    intro l r i h
    simp only [binarySearchByKey] at h
    split at h
    · split at h
      · obtain ⟨h1, h2, h3⟩ := ih h
        exact ⟨by omega, h2, h3⟩
      · split at h
        · obtain ⟨h1, h2, h3⟩ := ih h
          refine ⟨h1, by omega, h3⟩
        · cases h
          refine ⟨by omega, by omega, by omega⟩
    · cases h

theorem binarySearchByKey_error_bounds {keys : List Nat} {target : Nat} :
    ∀ {fuel left right i : Nat}, left ≤ right → right - left ≤ fuel →
      binarySearchByKey keys target fuel left right = .error i →
      left ≤ i ∧ i ≤ right := by
  intro fuel
  induction fuel with
  | zero =>
    intro l r i hlr hf h
    cases h
    omega
  | succ n ih =>
    intro l r i hlr hf h
    simp only [binarySearchByKey] at h
    split at h
    · split at h
      · have := ih (by omega) (by omega) h
        omega
      · split at h
        · have := ih (by omega) (by omega) h
          omega
        · cases h
    · cases h
      omega

theorem binarySearchByKey_error_spec {keys : List Nat} {target : Nat}
    (hmono : ∀ p q, p ≤ q → q < keys.length →
      keys.getD p 0 ≤ keys.getD q 0) :
    ∀ {fuel left right i : Nat}, left ≤ right → right - left ≤ fuel →
      right ≤ keys.length →
      binarySearchByKey keys target fuel left right = .error i →
      (∀ j, left ≤ j → j < i → keys.getD j 0 < target) ∧
      (∀ j, i ≤ j → j < right → target < keys.getD j 0) := by
  intro fuel
  induction fuel with
  | zero =>
    intro l r i hlr hf hlen h
    cases h
    constructor
    · intro j h1 h2; omega
    · intro j h1 h2; omega
  | succ n ih =>
    intro l r i hlr hf hlen h
    simp only [binarySearchByKey] at h
    split at h
    next hlr2 =>
      split at h
      next hklt =>
        have hbounds := binarySearchByKey_error_bounds (by omega) (by omega) h
        obtain ⟨hlo, hhi⟩ := ih (by omega) (by omega) hlen h
        constructor
        · intro j hj1 hj2
          by_cases hjm : j ≤ l + (r - l) / 2
          · exact Nat.lt_of_le_of_lt (hmono j (l + (r - l) / 2) hjm (by omega)) hklt
          · exact hlo j (by omega) hj2
        · exact hhi
      next hkge =>
        split at h
        next hkgt =>
          have hbounds := binarySearchByKey_error_bounds (by omega) (by omega) h
          obtain ⟨hlo, hhi⟩ := ih (by omega) (by omega) (by omega) h
          constructor
          · exact hlo
          · intro j hj1 hj2
            by_cases hjm : j < l + (r - l) / 2
            · exact hhi j hj1 hjm
            · exact Nat.lt_of_lt_of_le hkgt
                (hmono (l + (r - l) / 2) j (by omega) (by omega))
        next hkngt => cases h
    next hnlr =>
      cases h
      constructor
      · intro j h1 h2; omega
      · intro j h1 h2; omega

end Part2

namespace Part2

theorem from_vec_perm (ranges : List AlmanacRange) :
    List.Perm (AlmanacRanges.from_vec ranges) ranges :=
  List.perm_insertionSort leSourceStart ranges

theorem from_vec_sorted (ranges : List AlmanacRange) :
    (AlmanacRanges.from_vec ranges).Sorted leSourceStart :=
  List.sorted_insertionSort leSourceStart ranges

/-- The key list the binary search runs on, read back as a rule field. -/
theorem keys_getD {L : List AlmanacRange} {j : Nat} (hj : j < L.length) :
    (L.map (fun r => r.source_start)).getD j 0 = L[j].source_start := by
  rw [List.getD_eq_getElem?_getD, List.getElem?_map,
    List.getElem?_eq_getElem hj]
  rfl

/-- A list sorted by `source_start` has a monotone key list. -/
theorem sorted_keys_mono {L : List AlmanacRange} (hs : L.Sorted leSourceStart) :
    ∀ p q, p ≤ q → q < (L.map (fun r => r.source_start)).length →
      (L.map (fun r => r.source_start)).getD p 0
        ≤ (L.map (fun r => r.source_start)).getD q 0 := by
  intro p q hpq hq
  rw [List.length_map] at hq
  have hp : p < L.length := Nat.lt_of_le_of_lt hpq hq
  rw [keys_getD hp, keys_getD hq]
  rcases Nat.lt_or_ge p q with hlt | hge
  · exact List.pairwise_iff_getElem.mp hs p q hp hq hlt
  · have : p = q := by omega
    subst this
    exact Nat.le_refl _

end Part2

/-- C10 (confirmed).  Part2's `AlmanacRanges::get_destination` is total
and panic-free on the output of `from_vec` applied to any rule list (in
fact on any rule list at all): the binary search always returns either a
valid index or an insertion point between `0` and the list length, so
the `Err(0)` branch absorbs the empty list, `last().unwrap()` is only
reached on a non-empty list, and the `i - 1` index of the middle branch
is in bounds; `none` (the model of a Rust panic) is never produced. -/
theorem c10_binary_lookup_total (ranges : List AlmanacRange) (source : Nat) :
    ∃ d, Part2.AlmanacRanges.get_destination
      (Part2.AlmanacRanges.from_vec ranges) source = some d := by
  set L := Part2.AlmanacRanges.from_vec ranges with hL
  unfold Part2.AlmanacRanges.get_destination
  rcases hbs : Part2.binarySearchByKey (L.map (fun r => r.source_start)) source
      L.length 0 L.length with i | i
  · -- error case
    have hbounds := Part2.binarySearchByKey_error_bounds
      (Nat.zero_le _) (by omega) hbs
    rw [hbs]
    dsimp only
    by_cases h0 : i = 0
    · rw [if_pos h0]
      exact ⟨source, rfl⟩
    · rw [if_neg h0]
      by_cases hn : i = L.length
      · rw [if_pos hn]
        have hne : L ≠ [] := by
          intro hnil
          rw [hnil] at hn
          simp at hn
          omega
        rcases hlast : L.getLast? with _ | lastRange
        · exact absurd (List.getLast?_eq_none_iff.mp hlast) hne
        · exact ⟨_, rfl⟩
      · rw [if_neg hn]
        have hi1 : i - 1 < L.length := by omega
        rw [List.getElem?_eq_getElem hi1]
        exact ⟨_, rfl⟩
  · -- ok case
    obtain ⟨h1, h2, h3⟩ := Part2.binarySearchByKey_ok hbs
    rw [hbs]
    dsimp only
    rw [List.getElem?_eq_getElem h2]
    exact ⟨_, rfl⟩

/-- In a sorted, pairwise-disjoint table, a rule strictly before position
`k` cannot cover a source value that position `k`'s rule has already
started before: its closed interval would have to reach across rule `k`'s
start. -/
theorem no_earlier_cover {L : List AlmanacRange} {s : Nat}
    (hs : L.Sorted Part2.leSourceStart) (hpL : L.Pairwise DisjointClosed)
    {j k : Nat} (hj : j < L.length) (hk : k < L.length) (hjk : j < k)
    (hks : L[k].source_start ≤ s) (hcov : L[j].Covers s) : False := by
  have hle : Part2.leSourceStart L[j] L[k] :=
    List.pairwise_iff_getElem.mp hs j k hj hk hjk
  have hdis : DisjointClosed L[j] L[k] :=
    List.pairwise_iff_getElem.mp hpL j k hj hk hjk
  obtain ⟨h1, h2⟩ := hcov
  unfold Part2.leSourceStart at hle
  unfold DisjointClosed at hdis
  omega


/-- Central refinement lemma, stated over any sorted rearrangement `L` of
the rule list: when the closed source intervals are pairwise disjoint,
the binary-search lookup on `L` returns exactly part1's linear
first-match lookup on the original list, and never panics. -/
theorem bin_eq_linear_of_sorted {L ranges : List AlmanacRange}
    (hperm : List.Perm L ranges) (hsorted : L.Sorted Part2.leSourceStart)
    (hp : ranges.Pairwise DisjointClosed) (s : Nat) :
    Part2.AlmanacRanges.get_destination L s
      = some (Part1.AlmanacRanges.get_destination ranges s) := by
  have hpL : L.Pairwise DisjointClosed :=
    (hperm.pairwise_iff (fun h => disjointClosed_symm h)).mpr hp
  unfold Part2.AlmanacRanges.get_destination
  rcases hbs : Part2.binarySearchByKey (L.map (fun r => r.source_start)) s
      L.length 0 L.length with i | i
  · -- insertion-point (`Err`) outcomes
    have hbounds := Part2.binarySearchByKey_error_bounds
      (Nat.zero_le _) (by omega) hbs
    obtain ⟨hlo, hhi⟩ := Part2.binarySearchByKey_error_spec
      (Part2.sorted_keys_mono hsorted) (Nat.zero_le _) (by omega)
      (by rw [List.length_map]) hbs
    rw [hbs]
    dsimp only
    by_cases h0 : i = 0
    · rw [if_pos h0]
      have hnone : ∀ r ∈ ranges, ¬ r.Covers s := by
        intro r hr hc
        obtain ⟨j, hj, hje⟩ := List.mem_iff_getElem.mp (hperm.mem_iff.mpr hr)
        have hgt := hhi j (by omega) (by omega)
        rw [Part2.keys_getD hj, hje] at hgt
        obtain ⟨hc1, hc2⟩ := hc
        omega
      rw [Part1.get_destination_eq_self hnone]
    · rw [if_neg h0]
      by_cases hn : i = L.length
      · rw [if_pos hn]
        have hk : L.length - 1 < L.length := by omega
        rw [List.getLast?_eq_getElem?, List.getElem?_eq_getElem hk]
        dsimp only
        by_cases hc : L[L.length - 1].Covers s
        · rw [AlmanacRange.get_destination_of_covers hc]
          have hmem : L[L.length - 1] ∈ ranges :=
            hperm.mem_iff.mp (List.getElem_mem hk)
          rw [Part1.get_destination_eq_of_uniq hmem hc
            (covers_uniq_of_pairwise hp hmem hc)]
          rfl
        · rw [AlmanacRange.get_destination_of_not_covers hc]
          have hnone : ∀ r ∈ ranges, ¬ r.Covers s := by
            intro r hr hcr
            obtain ⟨j, hj, hje⟩ := List.mem_iff_getElem.mp (hperm.mem_iff.mpr hr)
            by_cases hjk : j = L.length - 1
            · subst hjk
              exact hc (hje.symm ▸ hcr)
            · have hks := hlo (L.length - 1) (by omega) (by omega)
              rw [Part2.keys_getD hk] at hks
              have hcovj : L[j].Covers s := hje.symm ▸ hcr
              have hsle : L[j].source_start ≤ s := hcovj.1
              exact no_earlier_cover hsorted hpL hj hk (by omega)
                (by omega) hcovj
          rw [Part1.get_destination_eq_self hnone]
          rfl
      · rw [if_neg hn]
        have hi1 : i - 1 < L.length := by omega
        rw [List.getElem?_eq_getElem hi1]
        dsimp only
        by_cases hc : L[i - 1].Covers s
        · rw [AlmanacRange.get_destination_of_covers hc]
          have hmem : L[i - 1] ∈ ranges :=
            hperm.mem_iff.mp (List.getElem_mem hi1)
          rw [Part1.get_destination_eq_of_uniq hmem hc
            (covers_uniq_of_pairwise hp hmem hc)]
          rfl
        · rw [AlmanacRange.get_destination_of_not_covers hc]
          have hnone : ∀ r ∈ ranges, ¬ r.Covers s := by
            intro r hr hcr
            obtain ⟨j, hj, hje⟩ := List.mem_iff_getElem.mp (hperm.mem_iff.mpr hr)
            rcases Nat.lt_or_ge j i with hji | hji
            · by_cases hjk : j = i - 1
              · subst hjk
                exact hc (hje.symm ▸ hcr)
              · have hks := hlo (i - 1) (by omega) (by omega)
                rw [Part2.keys_getD hi1] at hks
                have hcovj : L[j].Covers s := hje.symm ▸ hcr
                exact no_earlier_cover hsorted hpL hj hi1 (by omega)
                  (by omega) hcovj
            · have hgt := hhi j hji (by omega)
              rw [Part2.keys_getD hj, hje] at hgt
              obtain ⟨hc1, hc2⟩ := hcr
              omega
          rw [Part1.get_destination_eq_self hnone]
          rfl
  · -- exact-hit (`Ok`) outcome
    obtain ⟨h1, h2, h3⟩ := Part2.binarySearchByKey_ok hbs
    rw [Part2.keys_getD h2] at h3
    rw [hbs]
    dsimp only
    rw [List.getElem?_eq_getElem h2]
    simp only [Option.map_some']
    have hc : L[i].Covers s := by
      unfold AlmanacRange.Covers
      omega
    have hmem : L[i] ∈ ranges := hperm.mem_iff.mp (List.getElem_mem h2)
    rw [Part1.get_destination_eq_of_uniq hmem hc
      (covers_uniq_of_pairwise hp hmem hc)]
    have hz : s - L[i].source_start = 0 := by omega
    rw [hz, Nat.add_zero]

/-- The central refinement lemma, specialised to part2's own
construction: `from_vec` sorts, then the binary-search lookup agrees
with part1's linear lookup. -/
theorem Part2.get_destination_from_vec_eq {ranges : List AlmanacRange}
    (hp : ranges.Pairwise DisjointClosed) (s : Nat) :
    Part2.AlmanacRanges.get_destination (Part2.AlmanacRanges.from_vec ranges) s
      = some (Part1.AlmanacRanges.get_destination ranges s) :=
  bin_eq_linear_of_sorted (Part2.from_vec_perm ranges)
    (Part2.from_vec_sorted ranges) hp s

/-! ### Minimum characterisation and pipeline lemmas -/

/-- Rust's `Iterator::min` on a non-empty list of naturals: some smallest
element, i.e. a member that bounds every member from below. -/
theorem min?_spec {l : List Nat} (h : l ≠ []) :
    ∃ m, l.min? = some m ∧ m ∈ l ∧ ∀ b ∈ l, m ≤ b := by
  rcases hm : l.min? with _ | m
  · exact absurd (List.min?_eq_none_iff.mp hm) h
  · obtain ⟨h1, h2⟩ := (List.min?_eq_some_iff
      (fun a => Nat.le_refl a)
      (fun a b => by rw [Nat.min_def]; split <;> simp)
      (fun a b c => Nat.le_min)).mp hm
    exact ⟨m, rfl, h1, h2⟩

/-- Part1's seven-stage map pipeline collapses to one map of the
composed lookup. -/
theorem part1_run_eq_map_locationOfSeed (a : Part1.Almanac) :
    Part1.run a = (a.seeds.map (Part1.locationOfSeed a)).min? := by
  unfold Part1.run
  rw [List.map_map, List.map_map, List.map_map, List.map_map,
    List.map_map, List.map_map]
  rfl

/-- Part2's seven-stage map pipeline collapses to one map of the
composed lookup over the flattened seed points. -/
theorem part2_run_eq_map_locationOfSeed (a : Part2.Almanac) :
    Part2.run a = ((Part2.seedPoints a).map (Part2.locationOfSeed a)).min? := by
  unfold Part2.run
  rw [List.map_map, List.map_map, List.map_map, List.map_map,
    List.map_map, List.map_map]
  rfl

/-- C2 (confirmed).  For every almanac whose evaluated input set is
non-empty, the computed result is exactly the minimum, over every input
point (each seed in mode A, every integer of every half-open seed
interval in mode B), of the seven table lookups composed in the fixed
order seed→soil→fertilizer→water→light→temperature→humidity→location:
it is attained at some input point and bounds every input point's
location from below. -/
theorem c2_end_to_end (a1 : Part1.Almanac) (a2 : Part2.Almanac) :
    (a1.seeds ≠ [] →
      ∃ m, Part1.run a1 = some m ∧
        (∃ s ∈ a1.seeds, Part1.locationOfSeed a1 s = m) ∧
        (∀ s ∈ a1.seeds, m ≤ Part1.locationOfSeed a1 s)) ∧
    (Part2.seedPoints a2 ≠ [] →
      ∃ m, Part2.run a2 = some m ∧
        (∃ s ∈ Part2.seedPoints a2, Part2.locationOfSeed a2 s = m) ∧
        (∀ s ∈ Part2.seedPoints a2, m ≤ Part2.locationOfSeed a2 s)) := by
  constructor
  · intro h
    obtain ⟨m, hm, hmem, hle⟩ := min?_spec
      (l := a1.seeds.map (Part1.locationOfSeed a1))
      (by rw [Ne, List.map_eq_nil_iff]; exact h)
    refine ⟨m, ?_, ?_, ?_⟩
    · rw [part1_run_eq_map_locationOfSeed, hm]
    · obtain ⟨s, hs, hsm⟩ := List.mem_map.mp hmem
      exact ⟨s, hs, hsm⟩
    · intro s hs
      exact hle _ (List.mem_map_of_mem _ hs)
  · intro h
    obtain ⟨m, hm, hmem, hle⟩ := min?_spec
      (l := (Part2.seedPoints a2).map (Part2.locationOfSeed a2))
      (by rw [Ne, List.map_eq_nil_iff]; exact h)
    refine ⟨m, ?_, ?_, ?_⟩
    · rw [part2_run_eq_map_locationOfSeed, hm]
    · obtain ⟨s, hs, hsm⟩ := List.mem_map.mp hmem
      exact ⟨s, hs, hsm⟩
    · intro s hs
      exact hle _ (List.mem_map_of_mem _ hs)

/-- Witness for C2 on a concrete almanac of each mode. -/
theorem c2_end_to_end_witness :
    (∃ m, Part1.run ⟨[1], [⟨0, 10, 5⟩], [], [], [], [], [], []⟩ = some m ∧
      (∃ s ∈ [1],
        Part1.locationOfSeed ⟨[1], [⟨0, 10, 5⟩], [], [], [], [], [], []⟩ s = m) ∧
      (∀ s ∈ [1],
        m ≤ Part1.locationOfSeed ⟨[1], [⟨0, 10, 5⟩], [], [], [], [], [], []⟩ s)) ∧
    (∃ m, Part2.run ⟨[(3, 5)], [], [], [], [], [], [], []⟩ = some m ∧
      (∃ s ∈ Part2.seedPoints ⟨[(3, 5)], [], [], [], [], [], [], []⟩,
        Part2.locationOfSeed ⟨[(3, 5)], [], [], [], [], [], [], []⟩ s = m) ∧
      (∀ s ∈ Part2.seedPoints ⟨[(3, 5)], [], [], [], [], [], [], []⟩,
        m ≤ Part2.locationOfSeed ⟨[(3, 5)], [], [], [], [], [], [], []⟩ s)) :=
  ⟨(c2_end_to_end ⟨[1], [⟨0, 10, 5⟩], [], [], [], [], [], []⟩
      ⟨[(3, 5)], [], [], [], [], [], [], []⟩).1 (by decide),
   (c2_end_to_end ⟨[1], [⟨0, 10, 5⟩], [], [], [], [], [], []⟩
      ⟨[(3, 5)], [], [], [], [], [], [], []⟩).2 (by decide)⟩

/-- C5 counterexample.  A mode B almanac whose seed-interval set is
non-empty — one interval, parsed from the pair `(5, 0)`, hence the empty
Rust range `5..5` — still evaluates to the no-minimum error, so
"a non-empty seed set never produces this error" is false as stated. -/
theorem c5_counterexample :
    (⟨[(5, 5)], [], [], [], [], [], [], []⟩ : Part2.Almanac).seeds ≠ [] ∧
    Part2.run ⟨[(5, 5)], [], [], [], [], [], [], []⟩ = none := by
  decide

/-- C5 (corrected).  The no-minimum error is hit exactly when the
evaluated input set is empty: in mode A, iff the seed list is empty; in
mode B, iff the flattened seed points are empty — which happens not only
for zero intervals but also when every interval is empty, so a non-empty
interval list of empty intervals still errors (see
`c5_counterexample`). -/
theorem c5_no_minimum_error (a1 : Part1.Almanac) (a2 : Part2.Almanac) :
    (Part1.run a1 = none ↔ a1.seeds = []) ∧
    (Part2.run a2 = none ↔ Part2.seedPoints a2 = []) := by
  constructor
  · rw [part1_run_eq_map_locationOfSeed, List.min?_eq_none_iff,
      List.map_eq_nil_iff]
  · rw [part2_run_eq_map_locationOfSeed, List.min?_eq_none_iff,
      List.map_eq_nil_iff]

/-- C4 counterexample.  The two rules `(src 0, dst 100, len 1)` and
`(src 1, dst 200, len 1)` have disjoint half-open source intervals
`[0, 1)` and `[1, 2)`, yet at source `1` part1's linear lookup answers
`101` (the first rule matches through its inclusive upper bound) while
part2's sorted binary-search lookup answers `200` (the exact-start hit on
the second rule), so the claimed equivalence under half-open disjointness
is false. -/
theorem c4_lookup_equivalence_counterexample :
    List.Pairwise DisjointHalfOpen [(⟨0, 100, 1⟩ : AlmanacRange), ⟨1, 200, 1⟩] ∧
    ¬ (Part2.AlmanacRanges.get_destination
        (Part2.AlmanacRanges.from_vec [⟨0, 100, 1⟩, ⟨1, 200, 1⟩]) 1
      = some (Part1.AlmanacRanges.get_destination [⟨0, 100, 1⟩, ⟨1, 200, 1⟩] 1)) := by
  decide

/-- C4 (corrected).  With the disjointness hypothesis strengthened from
the half-open intervals `[start, start + len)` to the closed intervals
`[start, start + len]` that the code's point lookup actually answers on,
the equivalence holds: for every such rule list and every source value,
part2's `from_vec`-then-binary-search lookup returns exactly part1's
linear first-match lookup. -/
theorem c4_lookup_equivalence {ranges : List AlmanacRange}
    (hp : ranges.Pairwise DisjointClosed) (s : Nat) :
    Part2.AlmanacRanges.get_destination (Part2.AlmanacRanges.from_vec ranges) s
      = some (Part1.AlmanacRanges.get_destination ranges s) :=
  Part2.get_destination_from_vec_eq hp s

/-- Witness for C4 on a concrete closed-disjoint table (and a source that
lands in the gap between the two rules). -/
theorem c4_lookup_equivalence_witness :
    Part2.AlmanacRanges.get_destination
      (Part2.AlmanacRanges.from_vec [⟨6, 200, 1⟩, ⟨0, 100, 1⟩]) 3
      = some (Part1.AlmanacRanges.get_destination [⟨6, 200, 1⟩, ⟨0, 100, 1⟩] 3) :=
  c4_lookup_equivalence (by decide) 3

/-- C7 (confirmed).  For two sources `s1 < s2` of one region — either
both covered by the same rule `R`, the only rule of the table answering
either of them, or both in an uncovered identity gap — the table lookup
is an affine map of slope one: `lookup s2 = lookup s1 + (s2 - s1)`, so
the lookup is strictly increasing there and the minimum over such a
sub-interval is attained at its smallest source.  Under the (spec-side)
disjointness of the table this transfers to part2's binary-search lookup
as well. -/
theorem c7_order_preservation (ranges : List AlmanacRange) (R : AlmanacRange)
    (s1 s2 : Nat) (h12 : s1 < s2)
    (hcase : (R ∈ ranges ∧ R.Covers s1 ∧ R.Covers s2 ∧
        (∀ r ∈ ranges, r.Covers s1 ∨ r.Covers s2 → r = R))
      ∨ (∀ r ∈ ranges, ¬ r.Covers s1 ∧ ¬ r.Covers s2)) :
    Part1.AlmanacRanges.get_destination ranges s2
      = Part1.AlmanacRanges.get_destination ranges s1 + (s2 - s1) ∧
    (ranges.Pairwise DisjointClosed →
      Part2.AlmanacRanges.get_destination
        (Part2.AlmanacRanges.from_vec ranges) s2
      = some (Part1.AlmanacRanges.get_destination ranges s1 + (s2 - s1))) := by
  have hmain : Part1.AlmanacRanges.get_destination ranges s2
      = Part1.AlmanacRanges.get_destination ranges s1 + (s2 - s1) := by
    rcases hcase with ⟨hmem, hc1, hc2, huniq⟩ | hnone
    · rw [Part1.get_destination_eq_of_uniq hmem hc2
        (fun r hr hc => huniq r hr (Or.inr hc)),
        Part1.get_destination_eq_of_uniq hmem hc1
        (fun r hr hc => huniq r hr (Or.inl hc))]
      obtain ⟨ha, hb⟩ := hc1
      omega
    · rw [Part1.get_destination_eq_self (fun r hr => (hnone r hr).2),
        Part1.get_destination_eq_self (fun r hr => (hnone r hr).1)]
      omega
  refine ⟨hmain, fun hp => ?_⟩
  rw [Part2.get_destination_from_vec_eq hp s2, hmain]

/-- Witness for C7 on a one-rule table with both sources inside the
rule. -/
theorem c7_order_preservation_witness :
    Part1.AlmanacRanges.get_destination [⟨10, 100, 5⟩] 13
      = Part1.AlmanacRanges.get_destination [⟨10, 100, 5⟩] 11 + (13 - 11) ∧
    Part2.AlmanacRanges.get_destination
      (Part2.AlmanacRanges.from_vec [⟨10, 100, 5⟩]) 13
      = some (Part1.AlmanacRanges.get_destination [⟨10, 100, 5⟩] 11 + (13 - 11)) :=
  ⟨(c7_order_preservation [⟨10, 100, 5⟩] ⟨10, 100, 5⟩ 11 13 (by decide)
      (Or.inl (by decide))).1,
   (c7_order_preservation [⟨10, 100, 5⟩] ⟨10, 100, 5⟩ 11 13 (by decide)
      (Or.inl (by decide))).2 (by decide)⟩

/-! ### Claim theorems: parsing -/

/-- On an odd-length integer list, itertools' pairing drops the unpaired
final integer: the result is the same as pairing the list without its
last element. -/
theorem toPairRanges_dropLast : ∀ (nums : List Nat), Odd nums.length →
    Part2.toPairRanges nums = Part2.toPairRanges nums.dropLast
  | [], h => by simp [Nat.odd_iff] at h
  | [_], _ => rfl
  | [_, _], h => by simp [Nat.odd_iff] at h
  | x :: y :: z :: t, h => by
    have hr : Odd (z :: t).length := by
      simp only [List.length_cons, Nat.odd_iff] at h ⊢
      omega
    have ih := toPairRanges_dropLast (z :: t) hr
    simp only [Part2.toPairRanges, List.dropLast_cons₂]
    rw [ih]

/-- C6 counterexample.  The odd-length mode B seeds line `"1 2 3"`
parses successfully — the pair `(1, 2)` becomes the interval `[1, 3)`
and the unpaired trailing `3` is silently discarded — instead of failing
with a parse error as the claim requires. -/
theorem c6_odd_seed_count_counterexample :
    parse_num_sequence ['1', ' ', '2', ' ', '3'] = some [1, 2, 3] ∧
    Part2.parse_ranges ['1', ' ', '2', ' ', '3'] = some [(1, 3)] := by
  decide

/-- C6 (corrected).  Mode B's `parse_ranges` does not fail on an
odd count of integers: whenever the seeds line parses to an odd-length
integer list, the result is produced anyway, and it equals the pairing
of the list with its unpaired trailing integer silently dropped. -/
theorem c6_odd_seed_count (seq : Line) (nums : List Nat)
    (hp : parse_num_sequence seq = some nums) (hodd : Odd nums.length) :
    Part2.parse_ranges seq = some (Part2.toPairRanges nums) ∧
    Part2.toPairRanges nums = Part2.toPairRanges nums.dropLast := by
  constructor
  · unfold Part2.parse_ranges
    rw [hp]
    rfl
  · exact toPairRanges_dropLast nums hodd

/-- Witness for C6 on the concrete seeds line `"1 2 3"`. -/
theorem c6_odd_seed_count_witness :
    Part2.parse_ranges ['1', ' ', '2', ' ', '3']
      = some (Part2.toPairRanges [1, 2, 3]) ∧
    Part2.toPairRanges [1, 2, 3] = Part2.toPairRanges ([1, 2, 3].dropLast) :=
  c6_odd_seed_count ['1', ' ', '2', ' ', '3'] [1, 2, 3] (by decide) ⟨1, rfl⟩

/-- A section body containing a non-label line that does not read as
exactly three integers makes `parseRules` fail. -/
theorem parseRules_eq_none {ls : List Line} {l : Line} (hmem : l ∈ ls)
    (hlabel : endsWithColon l = false)
    (hbad : (parse_num_sequence l).map List.length ≠ some 3) :
    parseRules ls = none := by
  induction ls with
  | nil => cases hmem
  | cons a t ih =>
    rcases List.mem_cons.mp hmem with he | ht
    · subst he
      unfold parseRules
      rw [hlabel]
      simp only [Bool.false_eq_true, if_false]
      rcases hp : parse_num_sequence l with _ | nums
      · rfl
      · rw [hp] at hbad
        simp only [Option.map_some', ne_eq, Option.some.injEq] at hbad
        dsimp only
        rw [if_neg hbad]
    · unfold parseRules
      by_cases ha : endsWithColon a
      · rw [ha, if_pos rfl]
        exact ih ht
      · rw [Bool.not_eq_true] at ha
        rw [ha]
        simp only [Bool.false_eq_true, if_false]
        rcases hp : parse_num_sequence a with _ | nums
        · rfl
        · dsimp only
          by_cases h3 : nums.length = 3
          · rw [if_pos h3, ih ht]
            rfl
          · rw [if_neg h3]

/-- C9 (confirmed).  If any line of a section body (before the blank
line that ends the section) is neither a label line ending in `:` nor a
line of exactly three space-separated integers, then parsing the section
fails — in part1 and in part2 alike — instead of producing a mapping
table.  (In the Rust code the failure is the `assert_eq!(range.len(), 3)`
assertion, or the `unwrap` on a malformed integer, both of which abort
the run; the specification files both under its `ParseError`.) -/
theorem c9_malformed_rule_line (lines : List Line) (l : Line)
    (hmem : l ∈ lines.takeWhile (fun x => !x.isEmpty))
    (hlabel : endsWithColon l = false)
    (hbad : (parse_num_sequence l).map List.length ≠ some 3) :
    Part1.parse_section lines = none ∧ Part2.parse_section lines = none := by
  have h := parseRules_eq_none hmem hlabel hbad
  constructor
  · exact h
  · unfold Part2.parse_section
    rw [h]
    rfl

/-- Witness for C9: a section whose body is the label line `"m:"`
followed by the two-integer line `"1 2"`. -/
theorem c9_malformed_rule_line_witness :
    Part1.parse_section [['m', ':'], ['1', ' ', '2']] = none ∧
    Part2.parse_section [['m', ':'], ['1', ' ', '2']] = none :=
  c9_malformed_rule_line [['m', ':'], ['1', ' ', '2']] ['1', ' ', '2']
    (by decide) (by decide) (by decide)
